import Mathlib

/-!
# Verification of the Automated Excel Reporting pipeline

Shallow embedding of `generate_report.py` (and the data model set up by
`setup_database.py`).  Rows of the SQLite `sales` table are records with
exact rational arithmetic standing for SQLite `REAL`; data frames are
lists of rows; the Python exception / `sys.exit` control flow is made
explicit with an error type.
-/

namespace Report

/-! ## Data model: the `sales` table (see `setup_database.py`) -/

/-- One row of the `sales` table.  `sale_date` is the stored TEXT value
(`YYYY-MM-DD`), monetary columns are modelled exactly as rationals. -/
structure Sale where
  sale_id : Int
  sale_date : String
  product_name : String
  category : String
  quantity : Int
  unit_price : ℚ
  total_amount : ℚ
deriving DecidableEq

/-- One row of the result of the `GROUP BY` query in `get_sales_summary`. -/
structure SummaryRow where
  product_name : String
  category : String
  total_sales : Nat
  total_quantity : Int
  total_revenue : ℚ
  avg_sale_amount : ℚ
deriving DecidableEq

/-- The `GROUP BY product_name, category` key of a row. -/
def saleKey (r : Sale) : String × String := (r.product_name, r.category)

/-! ## First-occurrence deduplication

Used both for the distinct keys of the SQL `GROUP BY` and for pandas
`drop_duplicates()` (which keeps the first occurrence of each duplicate
group and preserves the order of the survivors). -/

/-- Scan keeping each element not already in `seen`. -/
def dropDupAux {α : Type} [DecidableEq α] (seen : List α) : List α → List α
  | [] => []
  | x :: xs => if x ∈ seen then dropDupAux seen xs else x :: dropDupAux (x :: seen) xs

/-- Remove duplicates, keeping the first occurrence of each value. -/
def dropDuplicates {α : Type} [DecidableEq α] (l : List α) : List α :=
  dropDupAux [] l

/-! ## The `GROUP BY` aggregation of `get_sales_summary` -/

/-- The raw rows sharing the key `k` (the group aggregated into one summary
row by the SQL `GROUP BY`). -/
def groupRows (rows : List Sale) (k : String × String) : List Sale :=
  rows.filter (fun r => decide (saleKey r = k))

/-- The aggregate row computed by the `SELECT` list of `get_sales_summary`:
`COUNT(*)`, `SUM(quantity)`, `SUM(total_amount)`, `AVG(total_amount)`. -/
def summaryOf (rows : List Sale) (k : String × String) : SummaryRow :=
  { product_name := k.1
    category := k.2
    total_sales := (groupRows rows k).length
    total_quantity := ((groupRows rows k).map Sale.quantity).sum
    total_revenue := ((groupRows rows k).map Sale.total_amount).sum
    avg_sale_amount :=
      ((groupRows rows k).map Sale.total_amount).sum / (groupRows rows k).length }

/-- Stable insertion of a summary row into a revenue-descending list
(models `ORDER BY total_revenue DESC`). -/
def insertDesc (t : SummaryRow) : List SummaryRow → List SummaryRow
  | [] => [t]
  | u :: us => if u.total_revenue < t.total_revenue then t :: u :: us else u :: insertDesc t us

/-- Stable sort by `total_revenue` descending. -/
def sortByRevenueDesc : List SummaryRow → List SummaryRow
  | [] => []
  | t :: ts => insertDesc t (sortByRevenueDesc ts)

/-- `get_sales_summary` (`generate_report.py`, lines 98-135): one summary row
per distinct `(product_name, category)` key, ordered by total revenue
descending. -/
def salesSummary (rows : List Sale) : List SummaryRow :=
  sortByRevenueDesc ((dropDuplicates (rows.map saleKey)).map (summaryOf rows))

/-! ## The pandas transform `process_data` (lines 140-170)

Data frames are lists of rows.  A row carries the `sale_date` column either
as the stored TEXT (before `pd.to_datetime`) or as a parsed date, and the
derived `month` / `day_of_week` columns as `Option` (absent until the
column assignment creates them). -/

/-- A value of the `sale_date` column. -/
inductive DateV where
  | raw (s : String)
  | parsed (y m d : Nat)
deriving DecidableEq

/-- One data-frame row during `process_data`. -/
structure PRow where
  sale_id : Int
  sale_date : DateV
  product_name : String
  category : String
  quantity : Int
  unit_price : ℚ
  total_amount : ℚ
  month : Option String
  day_of_week : Option String
deriving DecidableEq

/-- A pandas data frame. -/
abbrev Frame := List PRow

/-- Length of a month of the civil calendar. -/
def daysInMonth (y m : Nat) : Nat :=
  if m = 2 then (if y % 4 = 0 ∧ (y % 100 ≠ 0 ∨ y % 400 = 0) then 29 else 28)
  else if m = 4 ∨ m = 6 ∨ m = 9 ∨ m = 11 then 30 else 31

/-- Parse the stored `YYYY-MM-DD` TEXT (what `pd.to_datetime` receives;
`none` models the raised parse error). -/
def parseDate (s : String) : Option (Nat × Nat × Nat) :=
  match (s.splitOn "-").map String.toNat? with
  | [some y, some m, some d] =>
      if 1 ≤ m ∧ m ≤ 12 ∧ 1 ≤ d ∧ d ≤ daysInMonth y m then some (y, m, d) else none
  | _ => none

/-- `pd.to_datetime` on one cell: parse a raw TEXT value, keep a parsed one. -/
def toDatetimeV : DateV → Option DateV
  | .raw s => (parseDate s).map (fun t => .parsed t.1 t.2.1 t.2.2)
  | .parsed y m d => some (.parsed y m d)

/-- `df_processed['sale_date'] = pd.to_datetime(df_processed['sale_date'])`:
the whole column parses, or the call raises (`none`). -/
def parseColumn : Frame → Option Frame
  | [] => some []
  | r :: rs =>
    match toDatetimeV r.sale_date, parseColumn rs with
    | some dv, some rest => some ({ r with sale_date := dv } :: rest)
    | _, _ => none

/-- Zero-padded 2-digit decimal (`%m`). -/
def pad2 (n : Nat) : String := if n < 10 then "0" ++ toString n else toString n

/-- Zero-padded 4-digit decimal (`%Y`). -/
def pad4 (n : Nat) : String :=
  if n < 10 then "000" ++ toString n
  else if n < 100 then "00" ++ toString n
  else if n < 1000 then "0" ++ toString n
  else toString n

/-- Sakamoto's day-of-week algorithm (0 = Sunday): the civil-calendar
weekday that underlies `Series.dt.day_name()`. -/
def dowIndex (y m d : Nat) : Nat :=
  let t := [0, 3, 2, 5, 0, 3, 5, 1, 4, 6, 2, 4]
  let y' := if m < 3 then y - 1 else y
  (y' + y' / 4 - y' / 100 + y' / 400 + t.getD (m - 1) 0 + d) % 7

/-- The locale-independent English weekday names, Sunday first. -/
def dayNames : List String :=
  ["Sunday", "Monday", "Tuesday", "Wednesday", "Thursday", "Friday", "Saturday"]

/-- `strftime('%Y-%m')` of a cell.  (Only ever applied after the
`to_datetime` column assignment, so the `raw` branch is unreachable.) -/
def monthV : DateV → String
  | .parsed y m _ => pad4 y ++ "-" ++ pad2 m
  | .raw _ => ""

/-- `Series.dt.day_name()` of a cell (same unreachable `raw` branch). -/
def dayNameV : DateV → String
  | .parsed y m d => dayNames.getD (dowIndex y m d) ""
  | .raw _ => ""

/-- Round to an integer, ties to even (the NumPy/pandas rounding rule). -/
def roundHalfEven (q : ℚ) : ℤ :=
  let f := ⌊q⌋
  if q - f < 1 / 2 then f
  else if (1 : ℚ) / 2 < q - f then f + 1
  else if f % 2 = 0 then f else f + 1

/-- `Series.round(2)` on one cell. -/
def round2 (q : ℚ) : ℚ := (roundHalfEven (q * 100) : ℚ) / 100

/-- `df_processed['month'] = df_processed['sale_date'].dt.strftime('%Y-%m')`. -/
def setMonthCol (fr : Frame) : Frame :=
  fr.map (fun r => { r with month := some (monthV r.sale_date) })

/-- `df_processed['day_of_week'] = df_processed['sale_date'].dt.day_name()`. -/
def setDayOfWeekCol (fr : Frame) : Frame :=
  fr.map (fun r => { r with day_of_week := some (dayNameV r.sale_date) })

/-- `df_processed['unit_price'] = df_processed['unit_price'].round(2)`. -/
def roundUnitPriceCol (fr : Frame) : Frame :=
  fr.map (fun r => { r with unit_price := round2 r.unit_price })

/-- `df_processed['total_amount'] = df_processed['total_amount'].round(2)`. -/
def roundTotalAmountCol (fr : Frame) : Frame :=
  fr.map (fun r => { r with total_amount := round2 r.total_amount })

/-- `process_data` (lines 140-170), statement for statement: parse
`sale_date`, derive `month`, derive `day_of_week`, round `unit_price`,
round `total_amount`, then `drop_duplicates()`.  `none` is the raised
exception of `pd.to_datetime` on an unparseable date. -/
def processData (fr : Frame) : Option Frame :=
  match parseColumn fr with
  | none => none
  | some f1 =>
    some (dropDuplicates (roundTotalAmountCol (roundUnitPriceCol
      (setDayOfWeekCol (setMonthCol f1)))))

/-- All the derivations and roundings of `process_data` fused into one
row transform (applied to a date-parsed row). -/
def deriveRow (r : PRow) : PRow :=
  { r with
    month := some (monthV r.sale_date)
    day_of_week := some (dayNameV r.sale_date)
    unit_price := round2 r.unit_price
    total_amount := round2 r.total_amount }

/-- The opposite order rejected by the spec (deduplicate the parsed rows
first, then derive); written from the spec's words for comparison. -/
def dedupThenDerive (fr : Frame) : Frame :=
  (dropDuplicates fr).map deriveRow

/-- `True` exactly on a parsed `sale_date` cell. -/
def isParsedDate : DateV → Bool
  | .parsed _ _ _ => true
  | .raw _ => false

/-- The claim's already-clean input: dates parsed, monetary fields already
2-decimal values, and no fully identical rows. -/
def CleanFrame (fr : Frame) : Prop :=
  (∀ r ∈ fr, isParsedDate r.sale_date = true
    ∧ round2 r.unit_price = r.unit_price
    ∧ round2 r.total_amount = r.total_amount)
  ∧ fr.Nodup

/-! ## Python reference semantics for `process_data` (for the frame claim)

Data-frame objects live on a heap; variables hold references.  `df.copy()`
allocates, a column assignment writes through the reference, and
`drop_duplicates()` returns a fresh object that the final statement
rebinds `df_processed` to. -/

/-- The heap of data-frame objects. -/
abbrev Heap := List Frame

/-- Read the object a reference points at. -/
def heapGet (h : Heap) (r : Nat) : Frame := h.getD r []

/-- Allocate a fresh object, returning the extended heap and the new
reference. -/
def heapAlloc (h : Heap) (fr : Frame) : Heap × Nat := (h ++ [fr], h.length)

/-- Destructive update of the object at `r` (an in-place column write). -/
def heapSet (h : Heap) (r : Nat) (fr : Frame) : Heap := h.set r fr

/-- `process_data` under reference semantics, statement for statement:
`df_processed = df.copy()` allocates; the five column assignments mutate
the copy in place; `df_processed = df_processed.drop_duplicates()` binds a
fresh object; `return df_processed`.  `none` is the `pd.to_datetime`
exception propagating out. -/
def processDataHeap (h : Heap) (df : Nat) : Heap × Option Nat :=
  let a := heapAlloc h (heapGet h df)
  match parseColumn (heapGet a.1 a.2) with
  | none => (a.1, none)
  | some parsedFr =>
    let h2 := heapSet a.1 a.2 parsedFr
    let h3 := heapSet h2 a.2 (setMonthCol (heapGet h2 a.2))
    let h4 := heapSet h3 a.2 (setDayOfWeekCol (heapGet h3 a.2))
    let h5 := heapSet h4 a.2 (roundUnitPriceCol (heapGet h4 a.2))
    let h6 := heapSet h5 a.2 (roundTotalAmountCol (heapGet h5 a.2))
    let b := heapAlloc h6 (dropDuplicates (heapGet h6 a.2))
    (b.1, some b.2)

/-! ## Orchestration model: failures, logging, exit codes

`main` and the component functions of `generate_report.py`, over an
environment that fixes which external operations succeed.  `sys.exit(n)`
raises `SystemExit`, which `except Exception` does not catch, so it is
kept apart from ordinary exceptions. -/

/-- Abrupt termination of a block. -/
inductive Abort where
  | exit (code : Nat)
  | exn
deriving DecidableEq

/-- One run's external world: which operations succeed, the configured
email toggle, and the content of the `sales` table. -/
structure Env where
  config_exists : Bool
  connect_ok : Bool
  raw_query_ok : Bool
  summary_query_ok : Bool
  phaseA_ok : Bool
  chart_ok : Bool
  send_email_flag : Bool
  email_ok : Bool
  rows : List Sale
deriving DecidableEq

/-- The observable state of a run: connection accounting, what is on disk,
and which errors were logged. -/
structure RunState where
  conns_opened : Nat
  conns_closed : Nat
  file_written : Bool
  charts_added : Bool
  config_error_logged : Bool
  fetch_error_logged : Bool
  summary_error_logged : Bool
  report_error_logged : Bool
  chart_error_logged : Bool
  email_error_logged : Bool
  email_sent : Bool
deriving DecidableEq

/-- The state at process start. -/
def initState : RunState :=
  { conns_opened := 0, conns_closed := 0, file_written := false,
    charts_added := false, config_error_logged := false,
    fetch_error_logged := false, summary_error_logged := false,
    report_error_logged := false, chart_error_logged := false,
    email_error_logged := false, email_sent := false }

/-- `load_config` (lines 33-49): a missing `config.ini` prints an error and
calls `sys.exit(1)` before anything else happens. -/
def load_config (env : Env) (st : RunState) : RunState × Option Abort :=
  if env.config_exists then (st, none)
  else ({ st with config_error_logged := true }, some (.exit 1))

/-- `fetch_sales_data` (lines 54-96).  On success the connection is opened,
the query runs, `conn.close()` runs, and the rows are returned.  If the
query raises, control jumps to the `except` block, which logs and calls
`sys.exit(1)` without reaching `conn.close()`. -/
def fetch_sales_data (env : Env) (st : RunState) :
    RunState × Except Abort (List Sale) :=
  if env.connect_ok then
    if env.raw_query_ok then
      ({ st with conns_opened := st.conns_opened + 1,
                 conns_closed := st.conns_closed + 1 }, .ok env.rows)
    else
      ({ st with conns_opened := st.conns_opened + 1,
                 fetch_error_logged := true }, .error (.exit 1))
  else
    ({ st with fetch_error_logged := true }, .error (.exit 1))

/-- `get_sales_summary` (lines 98-135): same shape as `fetch_sales_data`,
returning the grouped aggregate; the same `except` block exits with code 1
without closing the connection. -/
def get_sales_summary (env : Env) (st : RunState) :
    RunState × Except Abort (List SummaryRow) :=
  if env.connect_ok then
    if env.summary_query_ok then
      ({ st with conns_opened := st.conns_opened + 1,
                 conns_closed := st.conns_closed + 1 }, .ok (salesSummary env.rows))
    else
      ({ st with conns_opened := st.conns_opened + 1,
                 summary_error_logged := true }, .error (.exit 1))
  else
    ({ st with summary_error_logged := true }, .error (.exit 1))

/-- The raw data frame handed from `fetch_sales_data` to `process_data`. -/
def toPRow (s : Sale) : PRow :=
  { sale_id := s.sale_id, sale_date := .raw s.sale_date,
    product_name := s.product_name, category := s.category,
    quantity := s.quantity, unit_price := s.unit_price,
    total_amount := s.total_amount, month := none, day_of_week := none }

/-- Convert the fetched rows into a data frame. -/
def toFrame (rows : List Sale) : Frame := rows.map toPRow

/-- `add_charts_to_report` (lines 257-312): its own `try`/`except` catches
every failure, logs it, and returns normally — it never raises and never
changes the exit code. -/
def add_charts_to_report (env : Env) (st : RunState) : RunState :=
  if env.chart_ok then { st with charts_added := true }
  else { st with chart_error_logged := true }

/-- `generate_excel_report` (lines 175-255): Phase A writes the
spreadsheet; a Phase A failure is logged and exits with code 1.  Phase B is
the `add_charts_to_report` call, which cannot raise. -/
def generate_excel_report (env : Env) (st : RunState) : RunState × Option Abort :=
  if env.phaseA_ok then
    (add_charts_to_report env { st with file_written := true }, none)
  else
    ({ st with report_error_logged := true }, some (.exit 1))

/-- `send_email` (lines 317-386): any failure is caught, logged, and
absorbed; the function always returns normally. -/
def send_email (env : Env) (st : RunState) : RunState :=
  if env.email_ok then { st with email_sent := true }
  else { st with email_error_logged := true }

/-- `main` (lines 391-441): the pipeline inside `try`/`except Exception`.
A `SystemExit` from a component passes through the handler and becomes the
process exit code; an ordinary exception (an unparseable date in
`process_data`) is caught and turned into `sys.exit(1)`.  Falling off the
end of `main` exits with code 0. -/
def runMain (env : Env) : RunState × Nat :=
  match load_config env initState with
  | (st, some (.exit c)) => (st, c)
  | (st, some .exn) => (st, 1)
  | (st0, none) =>
    match fetch_sales_data env st0 with
    | (st, .error (.exit c)) => (st, c)
    | (st, .error .exn) => (st, 1)
    | (st1, .ok raw) =>
      match get_sales_summary env st1 with
      | (st, .error (.exit c)) => (st, c)
      | (st, .error .exn) => (st, 1)
      | (st2, .ok _) =>
        match processData (toFrame raw) with
        | none => (st2, 1)
        | some _ =>
          match generate_excel_report env st2 with
          | (st, some (.exit c)) => (st, c)
          | (st, some .exn) => (st, 1)
          | (st3, none) =>
            if env.send_email_flag then (send_email env st3, 0)
            else (st3, 0)

/-! ## The output filename (`main`, lines 417-421)

`output_file.replace('.xlsx', '_' + timestamp + '.xlsx')`.  Paths and the
timestamp are lists of characters. -/

/-- `True` when the first list is a prefix of the second. -/
def startsWith : List Char → List Char → Bool
  | [], _ => true
  | _ :: _, [] => false
  | a :: as, b :: bs => a == b && startsWith as bs

/-- `True` when the pattern occurs somewhere in the list. -/
def containsSeq (pat : List Char) : List Char → Bool
  | [] => startsWith pat []
  | c :: cs => startsWith pat (c :: cs) || containsSeq pat cs

/-- Python `str.replace`: replace every non-overlapping occurrence of the
(nonempty) pattern `p :: ps`, scanning left to right. -/
def replaceAll (p : Char) (ps rep : List Char) : List Char → List Char
  | [] => []
  | c :: cs =>
    if startsWith (p :: ps) (c :: cs)
    then rep ++ replaceAll p ps rep (cs.drop ps.length)
    else c :: replaceAll p ps rep cs
termination_by l => l.length
decreasing_by
  · simp only [List.length_drop, List.length_cons]
    omega
  · simp

/-- The characters of `".xlsx"`. -/
def xlsxPat : List Char := ['.', 'x', 'l', 's', 'x']

/-- Step 6 of `main`:
`output_file = output_file.replace('.xlsx', '_' + timestamp + '.xlsx')`. -/
def outputFileName (path ts : List Char) : List Char :=
  replaceAll '.' ['x', 'l', 's', 'x'] ('_' :: (ts ++ xlsxPat)) path

/-- The spec's description of the filename: the configured path with
`_<timestamp>` inserted immediately before its `.xlsx` suffix (written
from the spec's words for comparison). -/
def insertBeforeSuffix (path ts : List Char) : List Char :=
  path.take (path.length - 5) ++ ('_' :: (ts ++ xlsxPat))

/-! ## Concrete sample data (witnesses and counterexamples) -/

/-- A sample sale. -/
def wSaleA : Sale :=
  { sale_id := 1, sale_date := "2026-01-05", product_name := "Laptop",
    category := "Electronics", quantity := 2, unit_price := 900, total_amount := 1800 }

/-- A second sale of the same product and category. -/
def wSaleB : Sale :=
  { sale_id := 2, sale_date := "2026-01-06", product_name := "Laptop",
    category := "Electronics", quantity := 1, unit_price := 900, total_amount := 900 }

/-- A sale with a different grouping key. -/
def wSaleC : Sale :=
  { sale_id := 3, sale_date := "2026-01-06", product_name := "Desk",
    category := "Furniture", quantity := 1, unit_price := 400, total_amount := 400 }

/-- A small sales table with one duplicated grouping key. -/
def wRows : List Sale := [wSaleA, wSaleB, wSaleC]

/-- A parsed-date data-frame row with exact 2-decimal prices. -/
def demoBase : PRow :=
  { sale_id := 1, sale_date := .parsed 2026 1 5, product_name := "Laptop",
    category := "Electronics", quantity := 1, unit_price := 1,
    total_amount := 2, month := none, day_of_week := none }

/-- The same row with a unit price that only differs before rounding. -/
def demoAlt : PRow := { demoBase with unit_price := 1001 / 1000 }

/-- Two distinct rows that become identical after rounding: they separate
derive-then-deduplicate from deduplicate-then-derive. -/
def demoFrame : Frame := [demoBase, demoAlt]

/-- An already-clean one-row frame (parsed date, integral prices, no
duplicates). -/
def cleanRow : PRow :=
  { sale_id := 4, sale_date := .parsed 2026 2 3, product_name := "Desk",
    category := "Furniture", quantity := 2, unit_price := 400,
    total_amount := 800, month := none, day_of_week := none }

/-- A one-row clean frame. -/
def cleanFrameW : Frame := [cleanRow]

/-- A one-object heap for the frame-claim witness. -/
def wHeap : Heap := [[demoBase]]

/-- An environment in which every external operation succeeds. -/
def envOK : Env :=
  { config_exists := true, connect_ok := true, raw_query_ok := true,
    summary_query_ok := true, phaseA_ok := true, chart_ok := true,
    send_email_flag := true, email_ok := true, rows := [] }

/-- Chart attachment fails, everything else succeeds. -/
def envChartFail : Env := { envOK with chart_ok := false }

/-- The SMTP submission fails, everything else succeeds. -/
def envEmailFail : Env := { envOK with email_ok := false }

/-- The settings file is missing. -/
def envNoConfig : Env := { envOK with config_exists := false }

/-- The connection opens but the raw query raises. -/
def envQueryFail : Env := { envOK with raw_query_ok := false }

/-- A configured output path containing `.xlsx` twice, the second time as
its suffix: `a.xlsx.xlsx`. -/
def demoPath : List Char := 'a' :: (xlsxPat ++ xlsxPat)

/-- A sample `YYYYMMDD_HHMMSS` timestamp. -/
def demoTs : List Char :=
  ['2', '0', '2', '6', '0', '1', '0', '5', '_', '1', '2', '0', '0', '0', '0']

theorem mem_dropDupAux {α : Type} [DecidableEq α] (l : List α) :
    ∀ (seen : List α) (x : α), x ∈ dropDupAux seen l ↔ x ∈ l ∧ x ∉ seen := by
  induction l with
  | nil => intro seen x; simp [dropDupAux]
  | cons y ys ih =>
    intro seen x
    by_cases hy : y ∈ seen
    · simp only [dropDupAux, if_pos hy, ih, List.mem_cons]
      constructor
      · rintro ⟨hx, hns⟩
        exact ⟨Or.inr hx, hns⟩
      · rintro ⟨rfl | hx, hns⟩
        · exact absurd hy hns
        · exact ⟨hx, hns⟩
    · simp only [dropDupAux, if_neg hy, List.mem_cons, ih]
      constructor
      · rintro (rfl | ⟨hx, hns⟩)
        · exact ⟨Or.inl rfl, hy⟩
        · exact ⟨Or.inr hx, fun hs => hns (Or.inr hs)⟩
      · rintro ⟨rfl | hx, hns⟩
        · exact Or.inl rfl
        · by_cases hxy : x = y
          · exact Or.inl hxy
          · exact Or.inr ⟨hx, fun hs => by
              rcases hs with h | h
              · exact hxy h
              · exact hns h⟩

theorem mem_dropDuplicates {α : Type} [DecidableEq α] (l : List α) (x : α) :
    x ∈ dropDuplicates l ↔ x ∈ l := by
  simp [dropDuplicates, mem_dropDupAux]

theorem nodup_dropDupAux {α : Type} [DecidableEq α] (l : List α) :
    ∀ seen : List α, (dropDupAux seen l).Nodup := by
  induction l with
  | nil => intro seen; simp [dropDupAux]
  | cons y ys ih =>
    intro seen
    by_cases hy : y ∈ seen
    · simpa [dropDupAux, if_pos hy] using ih seen
    · simp only [dropDupAux, if_neg hy]
      refine List.nodup_cons.mpr ⟨fun hmem => ?_, ih (y :: seen)⟩
      exact ((mem_dropDupAux ys (y :: seen) y).mp hmem).2 (List.mem_cons_self y seen)

theorem nodup_dropDuplicates {α : Type} [DecidableEq α] (l : List α) :
    (dropDuplicates l).Nodup :=
  nodup_dropDupAux l []

theorem sublist_dropDupAux {α : Type} [DecidableEq α] (l : List α) :
    ∀ seen : List α, (dropDupAux seen l).Sublist l := by
  induction l with
  | nil => intro seen; simp [dropDupAux]
  | cons y ys ih =>
    intro seen
    by_cases hy : y ∈ seen
    · exact (by simpa [dropDupAux, if_pos hy] using (ih seen).cons y)
    · simpa [dropDupAux, if_neg hy] using (ih (y :: seen)).cons₂ y

theorem sublist_dropDuplicates {α : Type} [DecidableEq α] (l : List α) :
    (dropDuplicates l).Sublist l :=
  sublist_dropDupAux l []

theorem dropDupAux_eq_self {α : Type} [DecidableEq α] (l : List α) :
    ∀ seen : List α, l.Nodup → (∀ x ∈ l, x ∉ seen) → dropDupAux seen l = l := by
  induction l with
  | nil => intro seen _ _; rfl
  | cons y ys ih =>
    intro seen hnd hdis
    have hy : y ∉ seen := hdis y (List.mem_cons_self y ys)
    simp only [dropDupAux, if_neg hy]
    have hnd' := List.nodup_cons.mp hnd
    refine congrArg (y :: ·) (ih (y :: seen) hnd'.2 ?_)
    intro x hx hmem
    rcases List.mem_cons.mp hmem with rfl | h
    · exact hnd'.1 hx
    · exact hdis x (List.mem_cons_of_mem _ hx) h

theorem dropDuplicates_eq_self {α : Type} [DecidableEq α] (l : List α)
    (h : l.Nodup) : dropDuplicates l = l :=
  dropDupAux_eq_self l [] h (by simp)

theorem insertDesc_perm (t : SummaryRow) (l : List SummaryRow) :
    List.Perm (insertDesc t l) (t :: l) := by
  induction l with
  | nil => simp [insertDesc]
  | cons u us ih =>
    by_cases h : u.total_revenue < t.total_revenue
    · simp [insertDesc, if_pos h]
    · simp only [insertDesc, if_neg h]
      exact (ih.cons u).trans (List.Perm.swap t u us)

theorem sortByRevenueDesc_perm (l : List SummaryRow) :
    List.Perm (sortByRevenueDesc l) l := by
  induction l with
  | nil => simp [sortByRevenueDesc]
  | cons t ts ih =>
    exact (insertDesc_perm t (sortByRevenueDesc ts)).trans (ih.cons t)

theorem salesSummary_perm (rows : List Sale) :
    List.Perm (salesSummary rows)
      ((dropDuplicates (rows.map saleKey)).map (summaryOf rows)) :=
  sortByRevenueDesc_perm _

/-! ## Partition lemmas for the aggregation -/

theorem sum_map_filter_or {α M : Type} [AddCommMonoid M] (f : α → M) (p q : α → Bool)
    (hdis : ∀ a, p a = true → q a = false) (l : List α) :
    ((l.filter (fun a => p a || q a)).map f).sum
      = ((l.filter p).map f).sum + ((l.filter q).map f).sum := by
  induction l with
  | nil => simp
  | cons a l ih =>
    by_cases hp : p a = true
    · have hq := hdis a hp
      simp [List.filter_cons, hp, hq, ih, add_assoc]
    · have hp' : p a = false := by simpa using hp
      by_cases hq : q a = true
      · simp [List.filter_cons, hp', hq, ih, add_left_comm]
      · have hq' : q a = false := by simpa using hq
        simp [List.filter_cons, hp', hq', ih]

theorem sum_map_groups {M : Type} [AddCommMonoid M] (f : Sale → M) :
    ∀ (K : List (String × String)) (l : List Sale), K.Nodup →
    (K.map (fun k => ((l.filter (fun r => decide (saleKey r = k))).map f).sum)).sum
      = ((l.filter (fun r => decide (saleKey r ∈ K))).map f).sum := by
  intro K
  induction K with
  | nil =>
    intro l _
    have h0 : l.filter (fun r => decide (saleKey r ∈ ([] : List (String × String)))) = [] := by
      apply List.filter_eq_nil_iff.mpr
      intro a _
      simp
    simp [h0]
  | cons k K' ih =>
    intro l hnd
    have hnd' := List.nodup_cons.mp hnd
    have hsplit :
        (fun r => decide (saleKey r ∈ k :: K'))
          = (fun r => decide (saleKey r = k) || decide (saleKey r ∈ K')) := by
      funext r
      simp [List.mem_cons]
    have hdis : ∀ r : Sale, decide (saleKey r = k) = true → decide (saleKey r ∈ K') = false := by
      intro r h
      have hk : saleKey r = k := of_decide_eq_true h
      simp only [decide_eq_false_iff_not]
      rw [hk]
      exact hnd'.1
    rw [List.map_cons, List.sum_cons, ih l hnd'.2, hsplit,
      sum_map_filter_or f _ _ hdis l]

theorem sum_over_groups {M : Type} [AddCommMonoid M] (f : Sale → M) (rows : List Sale) :
    ((dropDuplicates (rows.map saleKey)).map
        (fun k => ((groupRows rows k).map f).sum)).sum
      = (rows.map f).sum := by
  have h := sum_map_groups f (dropDuplicates (rows.map saleKey)) rows
    (nodup_dropDuplicates _)
  have hcov : rows.filter
      (fun r => decide (saleKey r ∈ dropDuplicates (rows.map saleKey))) = rows := by
    apply List.filter_eq_self.mpr
    intro r hr
    simp only [decide_eq_true_eq, mem_dropDuplicates, List.mem_map]
    exact ⟨r, hr, rfl⟩
  rw [hcov] at h
  simpa [groupRows] using h

theorem length_filter_eq_one_of_nodup {α : Type} [DecidableEq α] (l : List α) (a : α)
    (hnd : l.Nodup) (ha : a ∈ l) :
    (l.filter (fun x => decide (x = a))).length = 1 := by
  induction l with
  | nil => cases ha
  | cons b l ih =>
    have hnd' := List.nodup_cons.mp hnd
    rcases List.mem_cons.mp ha with rfl | ha'
    · have hnil : l.filter (fun x => decide (x = a)) = [] := by
        apply List.filter_eq_nil_iff.mpr
        intro x hx
        simp only [decide_eq_true_eq]
        intro h
        exact hnd'.1 (h ▸ hx)
      simp [List.filter_cons, hnil]
    · have hb : (b = a) = False := by
        simp only [eq_iff_iff, iff_false]
        intro h
        exact hnd'.1 (h ▸ ha')
      simp [List.filter_cons, hb, ih hnd'.2 ha']

theorem summaryOf_key (rows : List Sale) (k : String × String) :
    ((summaryOf rows k).product_name, (summaryOf rows k).category) = k := by
  simp [summaryOf]

/-- `C1`: for every non-empty sales table the summary returned by
`get_sales_summary` is a correct group-by aggregation: every raw row's
`(product_name, category)` pair appears in exactly one summary row; that
row's count, quantity and revenue are the count and sums over exactly the
raw rows sharing the pair; and the summary's revenue (resp. quantity)
total equals the total over all raw rows. -/
theorem C1_summary_correct_groupby (rows : List Sale) (hne : rows ≠ []) :
    (∀ r ∈ rows,
        ((salesSummary rows).filter
          (fun t => decide ((t.product_name, t.category) = saleKey r))).length = 1)
  ∧ (∀ t ∈ salesSummary rows,
        t.total_sales = (groupRows rows (t.product_name, t.category)).length
      ∧ t.total_quantity
          = ((groupRows rows (t.product_name, t.category)).map Sale.quantity).sum
      ∧ t.total_revenue
          = ((groupRows rows (t.product_name, t.category)).map Sale.total_amount).sum)
  ∧ ((salesSummary rows).map SummaryRow.total_revenue).sum
      = (rows.map Sale.total_amount).sum
  ∧ ((salesSummary rows).map SummaryRow.total_quantity).sum
      = (rows.map Sale.quantity).sum := by
  have hperm := salesSummary_perm rows
  refine ⟨?_, ?_, ?_, ?_⟩
  · intro r hr
    have hpf := hperm.filter
      (fun t => decide ((t.product_name, t.category) = saleKey r))
    rw [hpf.length_eq, List.filter_map]
    have hcongr :
        ((fun t : SummaryRow => decide ((t.product_name, t.category) = saleKey r))
            ∘ summaryOf rows)
          = fun k => decide (k = saleKey r) := by
      funext k
      simp [Function.comp, summaryOf_key]
    rw [hcongr, List.length_map]
    exact length_filter_eq_one_of_nodup _ _ (nodup_dropDuplicates _)
      ((mem_dropDuplicates _ _).mpr (List.mem_map_of_mem saleKey hr))
  · intro t ht
    have ht' : t ∈ (dropDuplicates (rows.map saleKey)).map (summaryOf rows) :=
      hperm.mem_iff.mp ht
    obtain ⟨k, _, rfl⟩ := List.mem_map.mp ht'
    rw [summaryOf_key]
    exact ⟨rfl, rfl, rfl⟩
  · have hmap := (hperm.map SummaryRow.total_revenue).sum_eq
    rw [hmap, List.map_map]
    have : SummaryRow.total_revenue ∘ summaryOf rows
        = fun k => ((groupRows rows k).map Sale.total_amount).sum := rfl
    rw [this, sum_over_groups]
  · have hmap := (hperm.map SummaryRow.total_quantity).sum_eq
    rw [hmap, List.map_map]
    have : SummaryRow.total_quantity ∘ summaryOf rows
        = fun k => ((groupRows rows k).map Sale.quantity).sum := rfl
    rw [this, sum_over_groups]

/-! ## Lemmas about `process_data` -/

theorem dropDupAux_congr {α : Type} [DecidableEq α] (l : List α) :
    ∀ seen seen' : List α, (∀ x, x ∈ seen ↔ x ∈ seen') →
      dropDupAux seen l = dropDupAux seen' l := by
  induction l with
  | nil => intro seen seen' _; rfl
  | cons y ys ih =>
    intro seen seen' hiff
    by_cases hy : y ∈ seen
    · rw [dropDupAux, dropDupAux, if_pos hy, if_pos ((hiff y).mp hy)]
      exact ih seen seen' hiff
    · have hy' : y ∉ seen' := fun h => hy ((hiff y).mpr h)
      rw [dropDupAux, dropDupAux, if_neg hy, if_neg hy']
      refine congrArg (y :: ·) (ih (y :: seen) (y :: seen') ?_)
      intro x
      simp [List.mem_cons, hiff x]

theorem dropDupAux_filter {α : Type} [DecidableEq α] (l : List α) :
    ∀ (seen : List α) (a : α),
      dropDupAux (a :: seen) l = dropDupAux seen (l.filter (fun y => decide (y ≠ a))) := by
  induction l with
  | nil => intro seen a; rfl
  | cons x xs ih =>
    intro seen a
    by_cases hxa : x = a
    · subst hxa
      rw [dropDupAux, if_pos (List.mem_cons_self x seen)]
      rw [show (x :: xs).filter (fun y => decide (y ≠ x))
            = xs.filter (fun y => decide (y ≠ x)) by simp [List.filter_cons]]
      exact ih seen x
    · rw [show (x :: xs).filter (fun y => decide (y ≠ a))
            = x :: xs.filter (fun y => decide (y ≠ a)) by simp [List.filter_cons, hxa]]
      by_cases hxs : x ∈ seen
      · rw [dropDupAux, if_pos (List.mem_cons_of_mem _ hxs), dropDupAux, if_pos hxs]
        exact ih seen a
      · have hx1 : x ∉ a :: seen := by
          intro h
          rcases List.mem_cons.mp h with h | h
          · exact hxa h
          · exact hxs h
        rw [dropDupAux, if_neg hx1, dropDupAux, if_neg hxs]
        refine congrArg (x :: ·) ?_
        rw [dropDupAux_congr xs (x :: a :: seen) (a :: x :: seen) (by intro z; simp; tauto)]
        exact ih (x :: seen) a

theorem dropDuplicates_cons {α : Type} [DecidableEq α] (x : α) (xs : List α) :
    dropDuplicates (x :: xs)
      = x :: dropDuplicates (xs.filter (fun y => decide (y ≠ x))) := by
  rw [dropDuplicates, dropDupAux, if_neg (List.not_mem_nil x)]
  exact congrArg (x :: ·) (dropDupAux_filter xs [] x)

theorem colOps_eq_map_deriveRow (fr : Frame) :
    roundTotalAmountCol (roundUnitPriceCol (setDayOfWeekCol (setMonthCol fr)))
      = fr.map deriveRow := by
  simp only [roundTotalAmountCol, roundUnitPriceCol, setDayOfWeekCol, setMonthCol,
    List.map_map]
  rfl

theorem processData_eq_fused (fr f1 : Frame) (hp : parseColumn fr = some f1) :
    processData fr = some (dropDuplicates (f1.map deriveRow)) := by
  simp only [processData, hp]
  rw [colOps_eq_map_deriveRow]

theorem toDatetimeV_isParsed (d dv : DateV) (h : toDatetimeV d = some dv) :
    isParsedDate dv = true := by
  cases d with
  | raw s =>
    rw [toDatetimeV] at h
    obtain ⟨t, _, rfl⟩ := Option.map_eq_some'.mp h
    rfl
  | parsed y m dd =>
    rw [toDatetimeV] at h
    cases h
    rfl

theorem parseColumn_parsed (fr : Frame) :
    ∀ f1 : Frame, parseColumn fr = some f1 →
      ∀ r ∈ f1, isParsedDate r.sale_date = true := by
  induction fr with
  | nil =>
    intro f1 hp r hr
    rw [parseColumn] at hp
    cases hp
    cases hr
  | cons x xs ih =>
    intro f1 hp r hr
    rw [parseColumn] at hp
    cases hd : toDatetimeV x.sale_date with
    | none => rw [hd] at hp; cases hp
    | some dv =>
      rw [hd] at hp
      cases hrest : parseColumn xs with
      | none => rw [hrest] at hp; cases hp
      | some rest =>
        rw [hrest] at hp
        cases hp
        rcases List.mem_cons.mp hr with rfl | hr'
        · exact toDatetimeV_isParsed x.sale_date dv hd
        · exact ih rest hrest r hr'

theorem parseColumn_of_parsed (fr : Frame)
    (h : ∀ r ∈ fr, isParsedDate r.sale_date = true) : parseColumn fr = some fr := by
  induction fr with
  | nil => rfl
  | cons r rs ih =>
    have hr := h r (List.mem_cons_self r rs)
    have hrec := ih (fun x hx => h x (List.mem_cons_of_mem _ hx))
    obtain ⟨sid, sdate, pn, cat, qty, up, ta, mo, dw⟩ := r
    cases sdate with
    | raw s => simp [isParsedDate] at hr
    | parsed y m d =>
      rw [parseColumn, hrec]
      rfl

theorem roundHalfEven_intCast (z : ℤ) : roundHalfEven (z : ℚ) = z := by
  simp only [roundHalfEven, Int.floor_intCast, sub_self]
  rw [if_pos (by norm_num : (0 : ℚ) < 1 / 2)]

theorem round2_fixed (q : ℚ) : round2 (round2 q) = round2 q := by
  simp only [round2]
  have h : ((roundHalfEven (q * 100) : ℚ) / 100) * 100 = (roundHalfEven (q * 100) : ℚ) := by
    field_simp
  rw [h, roundHalfEven_intCast]

theorem round2_intCast (z : ℤ) : round2 (z : ℚ) = z := by
  simp only [round2]
  have h : (z : ℚ) * 100 = ((z * 100 : ℤ) : ℚ) := by push_cast; ring
  rw [h, roundHalfEven_intCast]
  push_cast
  field_simp

theorem deriveRow_idem (r : PRow) : deriveRow (deriveRow r) = deriveRow r := by
  simp [deriveRow, round2_fixed]

theorem deriveRow_sale_date (r : PRow) : (deriveRow r).sale_date = r.sale_date := rfl

theorem processData_idem (fr out : Frame) (h : processData fr = some out) :
    processData out = some out := by
  cases hp : parseColumn fr with
  | none => rw [processData, hp] at h; cases h
  | some f1 =>
    have hout : out = dropDuplicates (f1.map deriveRow) := by
      have hf := processData_eq_fused fr f1 hp
      rw [hf] at h
      exact (Option.some.inj h).symm
    have hparsed : ∀ r ∈ out, isParsedDate r.sale_date = true := by
      intro r hr
      rw [hout] at hr
      have hr' : r ∈ f1.map deriveRow := (mem_dropDuplicates _ _).mp hr
      obtain ⟨x, hx, rfl⟩ := List.mem_map.mp hr'
      rw [deriveRow_sale_date]
      exact parseColumn_parsed fr f1 hp x hx
    have hpc : parseColumn out = some out := parseColumn_of_parsed out hparsed
    have hfix : out.map deriveRow = out := by
      have hpt : ∀ x ∈ out, deriveRow x = x := by
        intro x hx
        rw [hout] at hx
        have hx' : x ∈ f1.map deriveRow := (mem_dropDuplicates _ _).mp hx
        obtain ⟨y, _, rfl⟩ := List.mem_map.mp hx'
        exact deriveRow_idem y
      calc out.map deriveRow = out.map id := List.map_congr_left hpt
        _ = out := List.map_id out
    have hnd : out.Nodup := by
      rw [hout]
      exact nodup_dropDuplicates _
    rw [processData_eq_fused out out hpc, hfix, dropDuplicates_eq_self out hnd]

/-! ## Heap lemmas and the frame property of `process_data` -/

theorem getD_append_left {α : Type} (l l' : List α) (d : α) (i : Nat)
    (hi : i < l.length) : (l ++ l').getD i d = l.getD i d := by
  induction l generalizing i with
  | nil => cases hi
  | cons x xs ih =>
    cases i with
    | zero => rfl
    | succ j => exact ih j (Nat.lt_of_succ_lt_succ hi)

theorem getD_append_length {α : Type} (l : List α) (x d : α) :
    (l ++ [x]).getD l.length d = x := by
  induction l with
  | nil => rfl
  | cons y ys ih => exact ih

theorem getD_set_self {α : Type} (l : List α) (v d : α) (i : Nat)
    (hi : i < l.length) : (l.set i v).getD i d = v := by
  induction l generalizing i with
  | nil => cases hi
  | cons x xs ih =>
    cases i with
    | zero => rfl
    | succ j => exact ih j (Nat.lt_of_succ_lt_succ hi)

theorem getD_set_ne {α : Type} (l : List α) (v d : α) (i j : Nat)
    (hne : i ≠ j) : (l.set i v).getD j d = l.getD j d := by
  induction l generalizing i j with
  | nil => cases i <;> rfl
  | cons x xs ih =>
    cases i with
    | zero =>
      cases j with
      | zero => exact absurd rfl hne
      | succ j' => rfl
    | succ i' =>
      cases j with
      | zero => rfl
      | succ j' => exact ih i' j' (fun hc => hne (congrArg Nat.succ hc))

theorem heapGet_heapSet_self (hh : Heap) (i : Nat) (v : Frame)
    (hi : i < hh.length) : heapGet (heapSet hh i v) i = v :=
  getD_set_self hh v [] i hi

theorem heapGet_heapSet_ne (hh : Heap) (i j : Nat) (v : Frame)
    (hne : i ≠ j) : heapGet (heapSet hh i v) j = heapGet hh j :=
  getD_set_ne hh v [] i j hne

theorem heapSet_heapSet (hh : Heap) (i : Nat) (a b : Frame) :
    heapSet (heapSet hh i a) i b = heapSet hh i b :=
  List.set_set a b hh i

theorem heapSet_length (hh : Heap) (i : Nat) (v : Frame) :
    (heapSet hh i v).length = hh.length :=
  List.length_set hh i v

theorem heapGet_append_left (hh hh' : Heap) (i : Nat) (hi : i < hh.length) :
    heapGet (hh ++ hh') i = heapGet hh i :=
  getD_append_left hh hh' [] i hi

theorem heapGet_append_self (hh : Heap) (fr : Frame) :
    heapGet (hh ++ [fr]) hh.length = fr :=
  getD_append_length hh fr []

theorem processDataHeap_none (h : Heap) (df : Nat)
    (hp : parseColumn (heapGet h df) = none) :
    processDataHeap h df = (h ++ [heapGet h df], none) := by
  simp only [processDataHeap, heapAlloc, heapGet_append_self, hp]

theorem processDataHeap_some (h : Heap) (df : Nat) (parsed : Frame)
    (hp : parseColumn (heapGet h df) = some parsed) :
    processDataHeap h df =
      (heapSet (h ++ [heapGet h df]) h.length
          (roundTotalAmountCol (roundUnitPriceCol (setDayOfWeekCol (setMonthCol parsed))))
        ++ [dropDuplicates (roundTotalAmountCol (roundUnitPriceCol
              (setDayOfWeekCol (setMonthCol parsed))))],
       some (h.length + 1)) := by
  simp only [processDataHeap, heapAlloc, heapGet_append_self, hp,
    heapGet_heapSet_self, heapSet_heapSet, heapSet_length, List.length_append,
    List.length_cons, List.length_nil, Nat.lt_succ_self, Nat.lt_add_one]

/-- `C8`: `process_data` does not mutate its argument.  Under reference
semantics, after the call (whether or not it raises) the input frame holds
exactly what it held before, and on success the returned reference is a
fresh object distinct from the input, holding the value of the pure
transform. -/
theorem C8_no_mutation (h : Heap) (df : Nat) (hdf : df < h.length) :
    heapGet (processDataHeap h df).1 df = heapGet h df
  ∧ ((processDataHeap h df).2 = none ↔ processData (heapGet h df) = none)
  ∧ (∀ res, (processDataHeap h df).2 = some res →
      res ≠ df
      ∧ processData (heapGet h df) = some (heapGet (processDataHeap h df).1 res)) := by
  cases hp : parseColumn (heapGet h df) with
  | none =>
    rw [processDataHeap_none h df hp]
    refine ⟨heapGet_append_left h _ df hdf, ?_, ?_⟩
    · simp [processData, hp]
    · intro res hres
      cases hres
  | some parsed =>
    rw [processDataHeap_some h df parsed hp]
    have hlenset : (heapSet (h ++ [heapGet h df]) h.length
        (roundTotalAmountCol (roundUnitPriceCol
          (setDayOfWeekCol (setMonthCol parsed))))).length = h.length + 1 := by
      rw [heapSet_length]
      simp
    refine ⟨?_, ?_, ?_⟩
    · show heapGet _ df = heapGet h df
      rw [heapGet_append_left _ _ df (by rw [hlenset]; omega)]
      rw [heapGet_heapSet_ne _ _ df _ (by omega)]
      exact heapGet_append_left h _ df hdf
    · constructor
      · intro hc
        cases hc
      · intro hc
        rw [processData, hp] at hc
        cases hc
    · intro res hres
      have hres' : res = h.length + 1 := (Option.some.inj hres).symm
      subst hres'
      refine ⟨by omega, ?_⟩
      rw [processData, hp]
      rw [show heapGet (heapSet (h ++ [heapGet h df]) h.length
            (roundTotalAmountCol (roundUnitPriceCol (setDayOfWeekCol (setMonthCol parsed))))
            ++ [dropDuplicates (roundTotalAmountCol (roundUnitPriceCol
                  (setDayOfWeekCol (setMonthCol parsed))))]) (h.length + 1)
          = dropDuplicates (roundTotalAmountCol (roundUnitPriceCol
              (setDayOfWeekCol (setMonthCol parsed))))
        from by rw [← hlenset]; exact heapGet_append_self _ _]

/-! ## Orchestration claims -/

/-- `C2`: when chart attachment fails (and the run reaches it), the failure
is logged, the Phase A spreadsheet stays on disk, no charts are added,
and the run completes with exit code 0 — the same exit code as the
identical run whose chart attachment succeeds. -/
theorem C2_chart_failure_absorbed (env : Env)
    (hc : env.config_exists = true) (hco : env.connect_ok = true)
    (hr : env.raw_query_ok = true) (hs : env.summary_query_ok = true)
    (hd : processData (toFrame env.rows) ≠ none)
    (ha : env.phaseA_ok = true) (hch : env.chart_ok = false) :
    (runMain env).2 = 0
  ∧ (runMain env).1.file_written = true
  ∧ (runMain env).1.chart_error_logged = true
  ∧ (runMain env).1.charts_added = false
  ∧ (runMain env).2 = (runMain { env with chart_ok := true }).2 := by
  obtain ⟨fr, hfr⟩ := Option.ne_none_iff_exists'.mp hd
  cases hse : env.send_email_flag <;> cases hem : env.email_ok <;>
    simp [runMain, load_config, fetch_sales_data, get_sales_summary,
      generate_excel_report, add_charts_to_report, send_email, initState,
      hc, hco, hr, hs, ha, hch, hfr, hse, hem]

/-- `C2` witness: the concrete chart-failure run. -/
theorem C2_witness :
    envChartFail.chart_ok = false
  ∧ ((runMain envChartFail).2 = 0
      ∧ (runMain envChartFail).1.file_written = true
      ∧ (runMain envChartFail).1.chart_error_logged = true
      ∧ (runMain envChartFail).1.charts_added = false
      ∧ (runMain envChartFail).2 = (runMain { envChartFail with chart_ok := true }).2) :=
  ⟨rfl, C2_chart_failure_absorbed envChartFail rfl rfl rfl rfl (by decide) rfl rfl⟩

/-- `C4`: a missing settings file reports the error and exits with code 1
before any other work: no connection is opened, no file is written, no
mail is sent. -/
theorem C4_missing_config_exits_early (env : Env)
    (h : env.config_exists = false) :
    (runMain env).2 = 1
  ∧ (runMain env).1.config_error_logged = true
  ∧ (runMain env).1.conns_opened = 0
  ∧ (runMain env).1.conns_closed = 0
  ∧ (runMain env).1.file_written = false
  ∧ (runMain env).1.email_sent = false := by
  simp [runMain, load_config, initState, h]

/-- `C4` witness: the concrete missing-settings run. -/
theorem C4_witness :
    envNoConfig.config_exists = false
  ∧ ((runMain envNoConfig).2 = 1
      ∧ (runMain envNoConfig).1.config_error_logged = true
      ∧ (runMain envNoConfig).1.conns_opened = 0
      ∧ (runMain envNoConfig).1.conns_closed = 0
      ∧ (runMain envNoConfig).1.file_written = false
      ∧ (runMain envNoConfig).1.email_sent = false) :=
  ⟨rfl, C4_missing_config_exits_early envNoConfig rfl⟩

/-- `C5`: once the report file is written, an email failure is caught and
logged, the run still exits with code 0, and the file stays on disk. -/
theorem C5_email_failure_absorbed (env : Env)
    (hc : env.config_exists = true) (hco : env.connect_ok = true)
    (hr : env.raw_query_ok = true) (hs : env.summary_query_ok = true)
    (hd : processData (toFrame env.rows) ≠ none)
    (ha : env.phaseA_ok = true)
    (hse : env.send_email_flag = true) (hem : env.email_ok = false) :
    (runMain env).2 = 0
  ∧ (runMain env).1.file_written = true
  ∧ (runMain env).1.email_error_logged = true
  ∧ (runMain env).1.email_sent = false := by
  obtain ⟨fr, hfr⟩ := Option.ne_none_iff_exists'.mp hd
  cases hch : env.chart_ok <;>
    simp [runMain, load_config, fetch_sales_data, get_sales_summary,
      generate_excel_report, add_charts_to_report, send_email, initState,
      hc, hco, hr, hs, ha, hch, hfr, hse, hem]

/-- `C5` witness: the concrete failing-email run. -/
theorem C5_witness :
    envEmailFail.email_ok = false
  ∧ ((runMain envEmailFail).2 = 0
      ∧ (runMain envEmailFail).1.file_written = true
      ∧ (runMain envEmailFail).1.email_error_logged = true
      ∧ (runMain envEmailFail).1.email_sent = false) :=
  ⟨rfl, C5_email_failure_absorbed envEmailFail rfl rfl rfl rfl (by decide) rfl rfl rfl⟩

/-- `C9` counterexample: with the connection open and the query failing,
`fetch_sales_data` exits with code 1 leaving the opened connection
unclosed — the failure path does not close the connection. -/
theorem C9_counterexample :
    (fetch_sales_data envQueryFail initState).1.conns_opened = 1
  ∧ (fetch_sales_data envQueryFail initState).1.conns_closed = 0
  ∧ (fetch_sales_data envQueryFail initState).2 = .error (.exit 1) :=
  ⟨rfl, rfl, rfl⟩

/-- `C9` amended: both `fetch_sales_data` and `get_sales_summary` close
their connection before returning on the success path; on a query failure
after connecting, each exits the process with code 1 and the connection is
left open. -/
theorem C9_amended_connections (env : Env) (st : RunState) :
    (∀ rows, (fetch_sales_data env st).2 = .ok rows →
        (fetch_sales_data env st).1.conns_opened = st.conns_opened + 1
      ∧ (fetch_sales_data env st).1.conns_closed = st.conns_closed + 1)
  ∧ (env.connect_ok = true → env.raw_query_ok = false →
        (fetch_sales_data env st).1.conns_opened = st.conns_opened + 1
      ∧ (fetch_sales_data env st).1.conns_closed = st.conns_closed
      ∧ (fetch_sales_data env st).2 = .error (.exit 1))
  ∧ (∀ srows, (get_sales_summary env st).2 = .ok srows →
        (get_sales_summary env st).1.conns_opened = st.conns_opened + 1
      ∧ (get_sales_summary env st).1.conns_closed = st.conns_closed + 1)
  ∧ (env.connect_ok = true → env.summary_query_ok = false →
        (get_sales_summary env st).1.conns_opened = st.conns_opened + 1
      ∧ (get_sales_summary env st).1.conns_closed = st.conns_closed
      ∧ (get_sales_summary env st).2 = .error (.exit 1)) := by
  cases hco : env.connect_ok <;> cases hr : env.raw_query_ok <;>
    cases hs : env.summary_query_ok <;>
      simp [fetch_sales_data, get_sales_summary, hco, hr, hs]

/-- `C9` witness: the success path of both functions balances its books,
and the concrete failing query leaves the connection open. -/
theorem C9_witness :
    ((fetch_sales_data envOK initState).1.conns_opened = 1
      ∧ (fetch_sales_data envOK initState).1.conns_closed = 1)
  ∧ ((fetch_sales_data envQueryFail initState).1.conns_opened = 1
      ∧ (fetch_sales_data envQueryFail initState).1.conns_closed = 0
      ∧ (fetch_sales_data envQueryFail initState).2 = .error (.exit 1)) :=
  ⟨(C9_amended_connections envOK initState).1 envOK.rows rfl,
   (C9_amended_connections envQueryFail initState).2.1 rfl rfl⟩

/-! ## Transform-stage claims -/

theorem round2_demoAlt : round2 ((1001 : ℚ) / 1000) = 1 := by
  have h1 : ((1001 : ℚ) / 1000) * 100 = 1001 / 10 := by norm_num
  have h2 : (⌊(1001 : ℚ) / 10⌋ : ℤ) = 100 := by
    rw [Int.floor_eq_iff]
    norm_num
  have h3 : roundHalfEven ((1001 : ℚ) / 1000 * 100) = 100 := by
    rw [h1]
    simp only [roundHalfEven, h2]
    rw [if_pos (by push_cast; norm_num : (1001 : ℚ) / 10 - ((100 : ℤ) : ℚ) < 1 / 2)]
  rw [round2, h3]
  norm_num

theorem round2_one : round2 (1 : ℚ) = 1 := by
  exact_mod_cast round2_intCast 1

theorem deriveRow_demo_eq : deriveRow demoAlt = deriveRow demoBase := by
  simp [deriveRow, demoAlt, demoBase, round2_demoAlt, round2_one]

theorem demoAlt_ne_demoBase : demoAlt ≠ demoBase := by
  intro h
  have h2 := congrArg PRow.unit_price h
  rw [show demoAlt.unit_price = 1001 / 1000 from rfl,
    show demoBase.unit_price = 1 from rfl] at h2
  norm_num at h2

/-- `C6`: `process_data` parses, derives `month` and `day_of_week`, rounds,
and only then removes duplicates, so deduplication compares the full row
including the derived columns (derive-then-deduplicate); on the two demo
rows — distinct raw rows whose derived rows coincide — the actual order
keeps one row while the reverse order would keep two. -/
theorem C6_derive_then_deduplicate :
    (∀ fr f1 : Frame, parseColumn fr = some f1 →
        processData fr = some (dropDuplicates (f1.map deriveRow)))
  ∧ processData demoFrame = some [deriveRow demoBase]
  ∧ dedupThenDerive demoFrame = [deriveRow demoBase, deriveRow demoAlt]
  ∧ deriveRow demoAlt = deriveRow demoBase
  ∧ demoAlt ≠ demoBase := by
  refine ⟨fun fr f1 hp => processData_eq_fused fr f1 hp, ?_, ?_, deriveRow_demo_eq,
    demoAlt_ne_demoBase⟩
  · rw [processData_eq_fused demoFrame demoFrame rfl]
    have hmap : demoFrame.map deriveRow = [deriveRow demoBase, deriveRow demoBase] := by
      simp [demoFrame, deriveRow_demo_eq]
    rw [hmap]
    simp [dropDuplicates, dropDupAux]
  · have hdd : dropDuplicates demoFrame = [demoBase, demoAlt] := by
      simp [demoFrame, dropDuplicates, dropDupAux, demoAlt_ne_demoBase]
    rw [dedupThenDerive, hdd]
    rfl

/-- `C6` witness: the fused form evaluated on the demo frame. -/
theorem C6_witness :
    parseColumn demoFrame = some demoFrame
  ∧ processData demoFrame = some (dropDuplicates (demoFrame.map deriveRow)) :=
  ⟨rfl, C6_derive_then_deduplicate.1 demoFrame demoFrame rfl⟩

/-- `C7`: on an already-clean input table, `process_data` is idempotent:
applying it to its own output returns that output unchanged. -/
theorem C7_transform_idempotent (fr : Frame) (hclean : CleanFrame fr)
    (out : Frame) (h : processData fr = some out) :
    processData out = some out :=
  processData_idem fr out h

/-- `C7` witness: the concrete clean one-row frame. -/
theorem C7_witness :
    CleanFrame cleanFrameW
  ∧ processData cleanFrameW = some (dropDuplicates (cleanFrameW.map deriveRow))
  ∧ processData (dropDuplicates (cleanFrameW.map deriveRow))
      = some (dropDuplicates (cleanFrameW.map deriveRow)) := by
  have hcl : CleanFrame cleanFrameW := by
    constructor
    · intro r hr
      have hr' : r = cleanRow := by
        simpa [cleanFrameW] using hr
      subst hr'
      refine ⟨rfl, ?_, ?_⟩
      · show round2 (400 : ℚ) = 400
        exact_mod_cast round2_intCast 400
      · show round2 (800 : ℚ) = 800
        exact_mod_cast round2_intCast 800
    · exact List.nodup_singleton _
  have hp : processData cleanFrameW = some (dropDuplicates (cleanFrameW.map deriveRow)) :=
    processData_eq_fused cleanFrameW cleanFrameW rfl
  exact ⟨hcl, hp, C7_transform_idempotent cleanFrameW hcl _ hp⟩

/-- `C10`: the duplicate removal inside `process_data` keeps the first
occurrence of each set of fully identical rows and preserves the order of
the survivors; on an input whose derived rows are pairwise distinct the
output is exactly the derived input in input order. -/
theorem C10_dedup_first_occurrence (fr f1 out : Frame)
    (hp : parseColumn fr = some f1) (ho : processData fr = some out) :
    out.Sublist (f1.map deriveRow)
  ∧ (∀ x : PRow, x ∈ out ↔ x ∈ f1.map deriveRow)
  ∧ out.Nodup
  ∧ ((f1.map deriveRow).Nodup → out = f1.map deriveRow)
  ∧ (∀ (x : PRow) (xs : Frame),
      dropDuplicates (x :: xs)
        = x :: dropDuplicates (xs.filter (fun y => decide (y ≠ x)))) := by
  have hout : out = dropDuplicates (f1.map deriveRow) := by
    have hf := processData_eq_fused fr f1 hp
    rw [hf] at ho
    exact (Option.some.inj ho).symm
  subst hout
  exact ⟨sublist_dropDuplicates _, fun x => mem_dropDuplicates _ x,
    nodup_dropDuplicates _, fun hnd => dropDuplicates_eq_self _ hnd,
    fun x xs => dropDuplicates_cons x xs⟩

/-- `C10` witness: the demo frame instantiation. -/
theorem C10_witness :
    parseColumn demoFrame = some demoFrame
  ∧ processData demoFrame = some (dropDuplicates (demoFrame.map deriveRow))
  ∧ (dropDuplicates (demoFrame.map deriveRow)).Sublist (demoFrame.map deriveRow) :=
  ⟨rfl, processData_eq_fused demoFrame demoFrame rfl,
    (C10_dedup_first_occurrence demoFrame demoFrame _ rfl
      (processData_eq_fused demoFrame demoFrame rfl)).1⟩

/-- `C8` witness: the one-object heap instantiation. -/
theorem C8_witness :
    0 < wHeap.length
  ∧ heapGet (processDataHeap wHeap 0).1 0 = heapGet wHeap 0 :=
  ⟨by decide, (C8_no_mutation wHeap 0 (by decide)).1⟩

/-- `C1` witness: the three-row sample table. -/
theorem C1_witness :
    wRows ≠ []
  ∧ ((∀ r ∈ wRows,
        ((salesSummary wRows).filter
          (fun t => decide ((t.product_name, t.category) = saleKey r))).length = 1)
    ∧ (∀ t ∈ salesSummary wRows,
          t.total_sales = (groupRows wRows (t.product_name, t.category)).length
        ∧ t.total_quantity
            = ((groupRows wRows (t.product_name, t.category)).map Sale.quantity).sum
        ∧ t.total_revenue
            = ((groupRows wRows (t.product_name, t.category)).map Sale.total_amount).sum)
    ∧ ((salesSummary wRows).map SummaryRow.total_revenue).sum
        = (wRows.map Sale.total_amount).sum
    ∧ ((salesSummary wRows).map SummaryRow.total_quantity).sum
        = (wRows.map Sale.quantity).sum) :=
  ⟨by decide, C1_summary_correct_groupby wRows (by decide)⟩

/-! ## Output-filename claims -/

theorem ov_short (u : List Char) (h1 : u ≠ []) (h2 : u.length ≤ 4) :
    startsWith xlsxPat (u ++ xlsxPat) = false := by
  match u with
  | [] => exact absurd rfl h1
  | [c1] => simp +decide [startsWith, xlsxPat]
  | [c1, c2] => simp +decide [startsWith, xlsxPat]
  | [c1, c2, c3] => simp +decide [startsWith, xlsxPat]
  | [c1, c2, c3, c4] => simp +decide [startsWith, xlsxPat]
  | c1 :: c2 :: c3 :: c4 :: c5 :: rest => simp at h2

theorem sw_long (c1 c2 c3 c4 c5 : Char) (rest v : List Char) :
    startsWith xlsxPat (c1 :: c2 :: c3 :: c4 :: c5 :: (rest ++ v))
      = startsWith xlsxPat (c1 :: c2 :: c3 :: c4 :: c5 :: rest) := by
  simp [startsWith, xlsxPat]

theorem replaceAll_clean (rep : List Char) :
    ∀ p : List Char, containsSeq xlsxPat p = false →
      replaceAll '.' ['x', 'l', 's', 'x'] rep (p ++ xlsxPat) = p ++ rep := by
  intro p
  induction p with
  | nil =>
    intro _
    simp +decide [replaceAll, startsWith, xlsxPat]
  | cons c p' ih =>
    intro hp
    simp only [containsSeq, Bool.or_eq_false_iff] at hp
    have hmiss : startsWith ['.', 'x', 'l', 's', 'x'] (c :: (p' ++ xlsxPat)) = false := by
      show startsWith xlsxPat (c :: (p' ++ xlsxPat)) = false
      match p' with
      | [] => simpa using ov_short [c] (by simp) (by simp)
      | [d1] => simpa using ov_short [c, d1] (by simp) (by simp)
      | [d1, d2] => simpa using ov_short [c, d1, d2] (by simp) (by simp)
      | [d1, d2, d3] => simpa using ov_short [c, d1, d2, d3] (by simp) (by simp)
      | d1 :: d2 :: d3 :: d4 :: rest =>
        rw [show d1 :: d2 :: d3 :: d4 :: rest ++ xlsxPat
              = d1 :: d2 :: d3 :: d4 :: (rest ++ xlsxPat) by simp]
        rw [sw_long c d1 d2 d3 d4 rest xlsxPat]
        exact hp.1
    have step : replaceAll '.' ['x', 'l', 's', 'x'] rep ((c :: p') ++ xlsxPat)
        = c :: replaceAll '.' ['x', 'l', 's', 'x'] rep (p' ++ xlsxPat) := by
      rw [List.cons_append, replaceAll, if_neg (by simp [hmiss])]
    rw [step, ih hp.2, List.cons_append]

theorem replaceAll_ends (rep : List Char) :
    ∀ (n : Nat) (u : List Char), u.length ≤ n →
      ∃ w, replaceAll '.' ['x', 'l', 's', 'x'] rep (u ++ xlsxPat) = w ++ rep := by
  intro n
  induction n with
  | zero =>
    intro u hu
    have : u = [] := List.length_eq_zero.mp (Nat.le_zero.mp hu)
    subst this
    exact ⟨[], by simp +decide [replaceAll, startsWith, xlsxPat]⟩
  | succ n ihn =>
    intro u hu
    match u with
    | [] => exact ⟨[], by simp +decide [replaceAll, startsWith, xlsxPat]⟩
    | c :: u' =>
      by_cases hsw : startsWith xlsxPat ((c :: u') ++ xlsxPat) = true
      · -- a match at the head: only possible when the head IS the suffix
        -- occurrence (u empty, handled above) or u is at least 5 long
        match u' with
        | [] =>
          refine ⟨rep.take 0, ?_⟩
          have : startsWith xlsxPat ([c] ++ xlsxPat) = false := ov_short [c] (by simp) (by simp)
          rw [this] at hsw
          exact absurd hsw (by simp)
        | [d1] =>
          have : startsWith xlsxPat ([c, d1] ++ xlsxPat) = false := ov_short [c, d1] (by simp) (by simp)
          rw [this] at hsw
          exact absurd hsw (by simp)
        | [d1, d2] =>
          have : startsWith xlsxPat ([c, d1, d2] ++ xlsxPat) = false := ov_short [c, d1, d2] (by simp) (by simp)
          rw [this] at hsw
          exact absurd hsw (by simp)
        | [d1, d2, d3] =>
          have : startsWith xlsxPat ([c, d1, d2, d3] ++ xlsxPat) = false := ov_short [c, d1, d2, d3] (by simp) (by simp)
          rw [this] at hsw
          exact absurd hsw (by simp)
        | d1 :: d2 :: d3 :: d4 :: rest =>
          have hdrop : ((d1 :: d2 :: d3 :: d4 :: rest ++ xlsxPat).drop 4)
              = rest ++ xlsxPat := by simp
          have step : replaceAll '.' ['x', 'l', 's', 'x'] rep
                ((c :: d1 :: d2 :: d3 :: d4 :: rest) ++ xlsxPat)
              = rep ++ replaceAll '.' ['x', 'l', 's', 'x'] rep (rest ++ xlsxPat) := by
            rw [List.cons_append, replaceAll, if_pos (by
              show startsWith ['.', 'x', 'l', 's', 'x']
                (c :: (d1 :: d2 :: d3 :: d4 :: rest ++ xlsxPat)) = true
              simpa using hsw)]
            simp
          obtain ⟨w', hw'⟩ := ihn rest (by simp at hu; omega)
          exact ⟨rep ++ w', by rw [step, hw', List.append_assoc]⟩
      · have hsw' : startsWith ['.', 'x', 'l', 's', 'x'] (c :: (u' ++ xlsxPat)) = false := by
          show startsWith xlsxPat (c :: (u' ++ xlsxPat)) = false
          simpa using hsw
        have step : replaceAll '.' ['x', 'l', 's', 'x'] rep ((c :: u') ++ xlsxPat)
            = c :: replaceAll '.' ['x', 'l', 's', 'x'] rep (u' ++ xlsxPat) := by
          rw [List.cons_append, replaceAll, if_neg (by simp [hsw'])]
        obtain ⟨w', hw'⟩ := ihn u' (by simp at hu; omega)
        exact ⟨c :: w', by rw [step, hw', List.cons_append]⟩

theorem insertBeforeSuffix_append (p ts : List Char) :
    insertBeforeSuffix (p ++ xlsxPat) ts = p ++ ('_' :: (ts ++ xlsxPat)) := by
  rw [insertBeforeSuffix]
  have hlen : (p ++ xlsxPat).length - 5 = p.length := by
    simp [xlsxPat]
  rw [hlen, List.take_left]

/-- `C3` counterexample: for the configured path `a.xlsx.xlsx` — which ends
in `.xlsx` — the computed filename is not the path with `_<timestamp>`
inserted before the suffix: `str.replace` rewrites the earlier occurrence
of `.xlsx` as well. -/
theorem C3_counterexample :
    (∃ u, demoPath = u ++ xlsxPat)
  ∧ outputFileName demoPath demoTs ≠ insertBeforeSuffix demoPath demoTs := by
  constructor
  · exact ⟨'a' :: xlsxPat, by simp [demoPath]⟩
  · intro hEq
    simp +decide [outputFileName, replaceAll, startsWith, xlsxPat, demoPath, demoTs,
      insertBeforeSuffix] at hEq

/-- `C3` amended: the orchestrator replaces every occurrence of `.xlsx` in
the configured path by `_<timestamp>.xlsx`.  When `.xlsx` occurs in the
path only as its final suffix this coincides with inserting `_<timestamp>`
immediately before the suffix, and whenever the configured path ends in
`.xlsx` the result still ends in `_<timestamp>.xlsx`. -/
theorem C3_amended_filename (p ts : List Char)
    (hno : containsSeq xlsxPat p = false) :
    outputFileName (p ++ xlsxPat) ts = insertBeforeSuffix (p ++ xlsxPat) ts
  ∧ outputFileName (p ++ xlsxPat) ts = p ++ ('_' :: (ts ++ xlsxPat))
  ∧ (∀ s : List Char, (∃ u, s = u ++ xlsxPat) →
      ∃ w, outputFileName s ts = w ++ ('_' :: (ts ++ xlsxPat))) := by
  refine ⟨?_, ?_, ?_⟩
  · rw [insertBeforeSuffix_append]
    exact replaceAll_clean ('_' :: (ts ++ xlsxPat)) p hno
  · exact replaceAll_clean ('_' :: (ts ++ xlsxPat)) p hno
  · rintro s ⟨u, rfl⟩
    exact replaceAll_ends ('_' :: (ts ++ xlsxPat)) u.length u (le_refl _)

/-- `C3` witness: a clean stem with the sample timestamp. -/
theorem C3_witness :
    containsSeq xlsxPat ['r', 'e', 'p', 'o', 'r', 't'] = false
  ∧ outputFileName (['r', 'e', 'p', 'o', 'r', 't'] ++ xlsxPat) demoTs
      = insertBeforeSuffix (['r', 'e', 'p', 'o', 'r', 't'] ++ xlsxPat) demoTs :=
  ⟨by decide, (C3_amended_filename ['r', 'e', 'p', 'o', 'r', 't'] demoTs (by decide)).1⟩

end Report
